import Mathlib

/-!
# Verification of the TerarkDB TTL table-properties collector

Shallow embedding of `db/table_properties_collector.cc`: the TTL sliding-window
tracker (`AddTtlToSliceWindow`), the TTL collector's `InternalAdd` and `Finish`,
the user-key adapter, and the varint property accessors.  Machine integers are
modelled as `Nat` with explicit `% 2 ^ 64` where C++ overflow matters.
-/

namespace TerarkTTL

/-- Sentinel `port::kMaxUint64`, the "unknown" sentinel. -/
def kMaxUint64 : Nat := 2 ^ 64 - 1

/-- Constant `kFiftyYearSecondsNumber = 1576800000` (line 17): TTLs are clamped to 50 years. -/
def kFiftyYearSecondsNumber : Nat := 1576800000

/-- The sliding-window state of `TtlIntTblPropCollector`:
`ttl_seconds_slice_window_` (circular buffer), `slice_window_ttl_index_`
(deque of positions, front at head), `slice_index_` (push counter), and
`min_scan_cap_ttl_seconds_` (running minimum, initialised to the sentinel). -/
structure WindowState where
  sliceWindow : List Nat
  sliceWindowIdx : List Nat
  sliceIndex : Nat
  minScanCapTtl : Nat
deriving Repr, DecidableEq

/-- Freshly-constructed window state. -/
def initWindowState : WindowState :=
  { sliceWindow := [], sliceWindowIdx := [], sliceIndex := 0,
    minScanCapTtl := kMaxUint64 }

/-- Repeated `std::deque::pop_back` in a loop: drop elements from the back while `p` holds. -/
def popBackWhile (p : Nat → Bool) (l : List Nat) : List Nat :=
  (l.reverse.dropWhile p).reverse

/-- Translation of `TtlIntTblPropCollector::AddTtlToSliceWindow` (lines 78-111),
clause by clause.  The C++ pops the back while `ttl >= window[back]`
(i.e. while `window[back] <= ttl`), pops the front while
`front <= slice_index_ - cap` (only once the buffer is full), writes `ttl`
into slot `slice_index_ % cap`, appends `slice_index_` to the deque,
increments the counter, and — once the counter has reached `cap` — folds the
value at the buffer slot of the deque's front into the running minimum. -/
def addTtlToSliceWindow (cap : Nat) (st : WindowState) (ttl : Nat) : WindowState :=
  if cap = 0 then st
  else
    let st1 :=
      if st.sliceIndex < cap then
        { st with
          sliceWindowIdx :=
            popBackWhile (fun q => st.sliceWindow.getD q 0 ≤ ttl) st.sliceWindowIdx,
          sliceWindow := st.sliceWindow ++ [ttl] }
      else
        let dq1 := st.sliceWindowIdx.dropWhile (fun q => q ≤ st.sliceIndex - cap)
        { st with
          sliceWindowIdx :=
            popBackWhile (fun q => st.sliceWindow.getD (q % cap) 0 ≤ ttl) dq1,
          sliceWindow := st.sliceWindow.set (st.sliceIndex % cap) ttl }
    let st2 := { st1 with
                 sliceWindowIdx := st1.sliceWindowIdx ++ [st.sliceIndex],
                 sliceIndex := st.sliceIndex + 1 }
    if cap ≤ st2.sliceIndex then
      { st2 with
        minScanCapTtl :=
          min st2.minScanCapTtl
            (st2.sliceWindow.getD (st2.sliceWindowIdx.headD 0 % cap) 0) }
    else st2

/-- The effect of a data-bearing no-TTL entry (lines 186-188): buffer, deque
and push counter are cleared; `min_scan_cap_ttl_seconds_` is left alone. -/
def resetWindow (st : WindowState) : WindowState :=
  { st with sliceWindow := [], sliceWindowIdx := [], sliceIndex := 0 }

/-- Push a whole sequence of TTL samples from the fresh state. -/
def runWindow (cap : Nat) (vals : List Nat) : WindowState :=
  vals.foldl (addTtlToSliceWindow cap) initWindowState

/-- The tracker's observable result, as consumed at `Finish` (lines 140-143):
known iff `min_scan_cap_ttl_seconds_` moved off the sentinel. -/
def trackerResult (st : WindowState) : Option Nat :=
  if st.minScanCapTtl < kMaxUint64 then some st.minScanCapTtl else none

/-- Maximum of the size-`C` window of `vals` starting at index `i`
(out-of-range positions read as 0, never reached under the invariant). -/
def windowMaxAt (C : Nat) (vals : List Nat) (i : Nat) : Nat :=
  ((List.range C).map (fun j => vals.getD (i + j) 0)).foldl max 0

/-- Brute-force recomputation of `min_scan_cap_ttl_seconds_`: the minimum,
over every fully-occurred window of `C` consecutive samples, of that
window's maximum, starting from the sentinel. -/
def bruteMinOfWindowMax (C : Nat) (vals : List Nat) : Nat :=
  ((List.range (vals.length + 1 - C)).map (windowMaxAt C vals)).foldl min kMaxUint64

/-- Brute-force minimum over all windows of the window *minimum* — the
quantity the spec claims the tracker computes. -/
def windowMinAt (C : Nat) (vals : List Nat) (i : Nat) : Nat :=
  ((List.range C).map (fun j => vals.getD (i + j) 0)).foldl min kMaxUint64

/-- Spec's claimed result: minimum over all full windows of the window minimum. -/
def bruteMinOfWindowMin (C : Nat) (vals : List Nat) : Nat :=
  ((List.range (vals.length + 1 - C)).map (windowMinAt C vals)).foldl min kMaxUint64

/-! ## List helper lemmas -/

theorem getD_concat_self (l : List Nat) (a d : Nat) : (l ++ [a]).getD l.length d = a := by
  rw [List.getD_eq_getElem?_getD, List.getElem?_concat_length]
  rfl

theorem getD_set_self (l : List Nat) (i : Nat) (a d : Nat) (h : i < l.length) :
    (l.set i a).getD i d = a := by
  rw [List.getD_eq_getElem?_getD, List.getElem?_set_self (by simpa using h)]
  simp [h]

theorem getD_set_ne (l : List Nat) (i j : Nat) (a d : Nat) (h : i ≠ j) :
    (l.set i a).getD j d = l.getD j d := by
  rw [List.getD_eq_getElem?_getD, List.getElem?_set_ne h, ← List.getD_eq_getElem?_getD]

/-- On a list where the `p`-true elements are upward closed along the list
order, `dropWhile p` removes exactly the `p`-true elements. -/
theorem dropWhile_eq_filter_of_pairwise (p : Nat → Bool) :
    ∀ l : List Nat, l.Pairwise (fun a b => p b = true → p a = true) →
      l.dropWhile p = l.filter (fun a => !p a) := by
  intro l
  induction l with
  | nil => intro _; rfl
  | cons a t ih =>
    intro hp
    rw [List.pairwise_cons] at hp
    by_cases ha : p a = true
    · rw [List.dropWhile_cons_of_pos ha, List.filter_cons_of_neg (by simp [ha]),
        ih hp.2]
    · rw [List.dropWhile_cons_of_neg ha, List.filter_cons_of_pos (by simp [ha])]
      have : ∀ b ∈ t, (!p b) = true := by
        intro b hb
        by_contra hc
        simp only [Bool.not_eq_true', Bool.not_eq_false] at hc
        exact ha (hp.1 b hb hc)
      rw [List.filter_eq_self.mpr this]

/-- On a list where the `p`-true elements are downward closed along the list
order, repeated `pop_back`-while-`p` removes exactly the `p`-true elements. -/
theorem popBackWhile_eq_filter (p : Nat → Bool) (l : List Nat)
    (h : l.Pairwise (fun a b => p a = true → p b = true)) :
    popBackWhile p l = l.filter (fun a => !p a) := by
  unfold popBackWhile
  rw [dropWhile_eq_filter_of_pairwise p l.reverse
      (List.pairwise_reverse.mpr h),
    List.filter_reverse, List.reverse_reverse]

theorem init_le_foldl_max (l : List Nat) (b : Nat) : b ≤ l.foldl max b := by
  induction l generalizing b with
  | nil => exact le_refl b
  | cons a t ih => exact le_trans (Nat.le_max_left b a) (ih (max b a))

theorem mem_le_foldl_max (l : List Nat) (a b : Nat) (h : a ∈ l) : a ≤ l.foldl max b := by
  induction l generalizing b with
  | nil => cases h
  | cons x t ih =>
    rcases List.mem_cons.mp h with h | h
    · subst h
      exact le_trans (Nat.le_max_right b a) (init_le_foldl_max t (max b a))
    · exact ih (max b x) h

theorem foldl_max_le (l : List Nat) (b B : Nat) (hb : b ≤ B) (h : ∀ a ∈ l, a ≤ B) :
    l.foldl max b ≤ B := by
  induction l generalizing b with
  | nil => exact hb
  | cons x t ih =>
    exact ih (max b x) (max_le hb (h x (List.mem_cons_self x t)))
      (fun a ha => h a (List.mem_cons_of_mem x ha))

theorem foldl_min_le_init (l : List Nat) (b : Nat) : l.foldl min b ≤ b := by
  induction l generalizing b with
  | nil => exact le_refl b
  | cons a t ih => exact le_trans (ih (min b a)) (Nat.min_le_left b a)

theorem foldl_min_le_mem (l : List Nat) (a b : Nat) (h : a ∈ l) : l.foldl min b ≤ a := by
  induction l generalizing b with
  | nil => cases h
  | cons x t ih =>
    rcases List.mem_cons.mp h with h | h
    · subst h
      exact le_trans (foldl_min_le_init t (min b a)) (Nat.min_le_right b a)
    · exact ih (min b x) h

theorem le_foldl_min (l : List Nat) (b B : Nat) (hb : B ≤ b) (h : ∀ a ∈ l, B ≤ a) :
    B ≤ l.foldl min b := by
  induction l generalizing b with
  | nil => exact hb
  | cons x t ih =>
    exact ih (min b x) (le_min hb (h x (List.mem_cons_self x t)))
      (fun a ha => h a (List.mem_cons_of_mem x ha))

theorem headD_mem (l : List Nat) (d : Nat) (h : l ≠ []) : l.headD d ∈ l := by
  cases l with
  | nil => exact absurd rfl h
  | cons a t => exact List.mem_cons_self a t

theorem headD_le_of_sorted (l : List Nat) (d : Nat) (hs : l.Pairwise (· < ·)) :
    ∀ q ∈ l, l.headD d ≤ q := by
  cases l with
  | nil => intro q hq; cases hq
  | cons a t =>
    intro q hq
    rcases List.mem_cons.mp hq with h | h
    · exact le_of_eq h.symm
    · exact le_of_lt (List.rel_of_pairwise_cons hs h)

theorem mod_ne_of_close (i p C : Nat) (h1 : i < p) (h2 : p - i < C) : i % C ≠ p % C := by
  intro heq
  have hdvd : C ∣ p - i := (Nat.modEq_iff_dvd' (le_of_lt h1)).mp heq
  have : C ≤ p - i := Nat.le_of_dvd (by omega) hdvd
  omega

/-! ## The sliding-window invariant -/

/-- Full invariant of the window state after pushing the samples `done`
(in order) from the fresh state, with capacity `C ≥ 1`:
the push counter equals the number of pushes; the circular buffer holds the
last `C` samples at their positions modulo `C`; the deque holds exactly the
positions inside the current lookback window whose value strictly dominates
every later value (hence positions are strictly increasing and values
strictly decreasing, front = maximum); and the running minimum equals the
brute-force minimum over all fully-occurred windows of the window maximum. -/
structure WindowInv (C : Nat) (done : List Nat) (st : WindowState) : Prop where
  idx_eq : st.sliceIndex = done.length
  win_len : st.sliceWindow.length = min done.length C
  win_val : ∀ i, i < done.length → done.length - C ≤ i →
      st.sliceWindow.getD (i % C) 0 = done.getD i 0
  dq_sorted : st.sliceWindowIdx.Pairwise (· < ·)
  dq_mem : ∀ q, q ∈ st.sliceWindowIdx ↔
      (done.length - C ≤ q ∧ q < done.length ∧
       ∀ r, q < r → r < done.length → done.getD r 0 < done.getD q 0)
  min_eq : st.minScanCapTtl = bruteMinOfWindowMax C done

theorem windowInv_init (C : Nat) (hC : 1 ≤ C) : WindowInv C [] initWindowState := by
  refine ⟨rfl, by simp [initWindowState], ?_, List.Pairwise.nil, ?_, ?_⟩
  · intro i hi _; simp at hi
  · intro q
    simp only [initWindowState, List.not_mem_nil, List.length_nil, false_iff]
    intro ⟨_, hq, _⟩
    omega
  · have h0 : (List.length ([] : List Nat)) + 1 - C = 0 := by simp; omega
    rw [bruteMinOfWindowMax, h0]
    rfl

/-- The value at the deque's front is the maximum of the last `C` samples. -/
theorem dq_front_max (C : Nat) (_hC : 1 ≤ C) (vals : List Nat) (dq : List Nat)
    (hlen : C ≤ vals.length)
    (hsort : dq.Pairwise (· < ·))
    (hne : dq ≠ [])
    (hmem : ∀ q, q ∈ dq ↔ (vals.length - C ≤ q ∧ q < vals.length ∧
        ∀ r, q < r → r < vals.length → vals.getD r 0 < vals.getD q 0)) :
    vals.getD (dq.headD 0) 0 = windowMaxAt C vals (vals.length - C) := by
  set hd := dq.headD 0 with hhd
  have hdmem : hd ∈ dq := headD_mem dq 0 hne
  have hdchar := (hmem hd).mp hdmem
  -- every sample in the window is bounded by the value at the deque's front
  have key : ∀ m, ∀ i, vals.length - C ≤ i → i < vals.length → vals.length - i ≤ m →
      vals.getD i 0 ≤ vals.getD hd 0 := by
    intro m
    induction m with
    | zero => intro i _ h2 h3; omega
    | succ m ih =>
      intro i h1 h2 h3
      by_cases hq : i ∈ dq
      · have hle : hd ≤ i := headD_le_of_sorted dq 0 hsort i hq
        rcases Nat.eq_or_lt_of_le hle with heq | hlt
        · rw [heq]
        · exact le_of_lt (hdchar.2.2 i hlt h2)
      · rw [hmem] at hq
        push_neg at hq
        obtain ⟨r, hir, hrlen, hge⟩ := hq h1 h2
        exact le_trans hge (ih r (by omega) hrlen (by omega))
  apply le_antisymm
  · -- the front's value occurs in the window
    unfold windowMaxAt
    apply mem_le_foldl_max
    apply List.mem_map.mpr
    refine ⟨hd - (vals.length - C), List.mem_range.mpr (by omega), ?_⟩
    congr 1
    omega
  · unfold windowMaxAt
    apply foldl_max_le _ _ _ (Nat.zero_le _)
    intro a ha
    obtain ⟨j, hj, rfl⟩ := List.mem_map.mp ha
    rw [List.mem_range] at hj
    exact key vals.length _ (by omega) (by omega) (by omega)

/-- Appending one sample extends the brute-force minimum-of-window-maxima by
exactly the newest window (once the window has filled at least once). -/
theorem bruteMin_concat (C : Nat) (_hC : 1 ≤ C) (done : List Nat) (v : Nat) :
    bruteMinOfWindowMax C (done ++ [v]) =
      if C ≤ done.length + 1 then
        min (bruteMinOfWindowMax C done)
          (windowMaxAt C (done ++ [v]) (done.length + 1 - C))
      else bruteMinOfWindowMax C done := by
  by_cases hful : C ≤ done.length + 1
  · rw [if_pos hful]
    unfold bruteMinOfWindowMax
    have hcount : (done ++ [v]).length + 1 - C = (done.length + 1 - C) + 1 := by
      simp; omega
    rw [hcount, List.range_succ, List.map_append, List.foldl_append]
    have hsame : (List.range (done.length + 1 - C)).map (windowMaxAt C (done ++ [v])) =
        (List.range (done.length + 1 - C)).map (windowMaxAt C done) := by
      apply List.map_congr_left
      intro i hi
      rw [List.mem_range] at hi
      unfold windowMaxAt
      congr 1
      apply List.map_congr_left
      intro j hj
      rw [List.mem_range] at hj
      exact List.getD_append _ _ _ _ (by omega)
    rw [hsame]
    rfl
  · rw [if_neg hful]
    unfold bruteMinOfWindowMax
    have h1 : (done ++ [v]).length + 1 - C = 0 := by simp; omega
    have h2 : done.length + 1 - C = 0 := by omega
    rw [h1, h2]
    rfl

/-- Unfolding of `addTtlToSliceWindow` in the growing phase (`slice_index_ < cap`). -/
theorem addTtl_eq_lt (C : Nat) (st : WindowState) (v : Nat) (hcap : ¬C = 0)
    (hb : st.sliceIndex < C) :
    addTtlToSliceWindow C st v =
      if C ≤ st.sliceIndex + 1 then
        { sliceWindow := st.sliceWindow ++ [v],
          sliceWindowIdx :=
            popBackWhile (fun q => st.sliceWindow.getD q 0 ≤ v) st.sliceWindowIdx
              ++ [st.sliceIndex],
          sliceIndex := st.sliceIndex + 1,
          minScanCapTtl := min st.minScanCapTtl
            ((st.sliceWindow ++ [v]).getD
              ((popBackWhile (fun q => st.sliceWindow.getD q 0 ≤ v) st.sliceWindowIdx
                  ++ [st.sliceIndex]).headD 0 % C) 0) }
      else
        { sliceWindow := st.sliceWindow ++ [v],
          sliceWindowIdx :=
            popBackWhile (fun q => st.sliceWindow.getD q 0 ≤ v) st.sliceWindowIdx
              ++ [st.sliceIndex],
          sliceIndex := st.sliceIndex + 1,
          minScanCapTtl := st.minScanCapTtl } := by
  unfold addTtlToSliceWindow
  rw [if_neg hcap, if_pos hb]

/-- Unfolding of `addTtlToSliceWindow` in the steady phase (`slice_index_ ≥ cap`). -/
theorem addTtl_eq_ge (C : Nat) (st : WindowState) (v : Nat) (hcap : ¬C = 0)
    (hb : ¬st.sliceIndex < C) :
    addTtlToSliceWindow C st v =
      { sliceWindow := st.sliceWindow.set (st.sliceIndex % C) v,
        sliceWindowIdx :=
          popBackWhile (fun q => st.sliceWindow.getD (q % C) 0 ≤ v)
              (st.sliceWindowIdx.dropWhile (fun q => q ≤ st.sliceIndex - C))
            ++ [st.sliceIndex],
        sliceIndex := st.sliceIndex + 1,
        minScanCapTtl := min st.minScanCapTtl
          ((st.sliceWindow.set (st.sliceIndex % C) v).getD
            ((popBackWhile (fun q => st.sliceWindow.getD (q % C) 0 ≤ v)
                  (st.sliceWindowIdx.dropWhile (fun q => q ≤ st.sliceIndex - C))
                ++ [st.sliceIndex]).headD 0 % C) 0) } := by
  unfold addTtlToSliceWindow
  rw [if_neg hcap, if_neg hb, if_pos (by omega : C ≤ st.sliceIndex + 1)]

/-- Membership characterization of the deque after one push, given the kept
part of the old deque. -/
theorem dq_mem_after (C : Nat) (hC : 1 ≤ C) (done : List Nat) (v : Nat) (dqKept : List Nat)
    (hkept : ∀ q, q ∈ dqKept ↔
      (done.length + 1 - C ≤ q ∧ q < done.length ∧
       (∀ r, q < r → r < done.length → done.getD r 0 < done.getD q 0) ∧
       v < done.getD q 0)) :
    ∀ q, q ∈ dqKept ++ [done.length] ↔
      ((done ++ [v]).length - C ≤ q ∧ q < (done ++ [v]).length ∧
       ∀ r, q < r → r < (done ++ [v]).length →
         (done ++ [v]).getD r 0 < (done ++ [v]).getD q 0) := by
  intro q
  have hlen' : (done ++ [v]).length = done.length + 1 := by simp
  rw [List.mem_append, List.mem_singleton, hlen']
  constructor
  · rintro (hq | rfl)
    · obtain ⟨h1, h2, h3, h4⟩ := (hkept q).mp hq
      have hgq : (done ++ [v]).getD q 0 = done.getD q 0 := List.getD_append _ _ _ _ h2
      refine ⟨by omega, by omega, ?_⟩
      intro r hqr hr
      by_cases hrl : r < done.length
      · rw [hgq, List.getD_append _ _ _ _ hrl]
        exact h3 r hqr hrl
      · have hre : r = done.length := by omega
        subst hre
        rw [hgq, getD_concat_self]
        exact h4
    · refine ⟨by omega, by omega, ?_⟩
      intro r h1 h2
      omega
  · rintro ⟨h1, h2, h3⟩
    by_cases hq : q = done.length
    · right; exact hq
    · left
      have hqlt : q < done.length := by omega
      have hgq : (done ++ [v]).getD q 0 = done.getD q 0 := List.getD_append _ _ _ _ hqlt
      refine (hkept q).mpr ⟨by omega, hqlt, ?_, ?_⟩
      · intro r hqr hrl
        have hh := h3 r hqr (by omega)
        rwa [hgq, List.getD_append _ _ _ _ hrl] at hh
      · have hh := h3 done.length hqlt (by omega)
        rwa [hgq, getD_concat_self] at hh

/-- The min-update step: folding the value at the new deque front into the
old running minimum yields the brute-force value over the extended stream. -/
theorem minScan_after (C : Nat) (hC : 1 ≤ C) (done : List Nat) (v : Nat)
    (dqKept : List Nat) (win' : List Nat) (oldMin : Nat)
    (hful : C ≤ done.length + 1)
    (hmin : oldMin = bruteMinOfWindowMax C done)
    (hmem' : ∀ q, q ∈ dqKept ++ [done.length] ↔
      ((done ++ [v]).length - C ≤ q ∧ q < (done ++ [v]).length ∧
       ∀ r, q < r → r < (done ++ [v]).length →
         (done ++ [v]).getD r 0 < (done ++ [v]).getD q 0))
    (hsort' : (dqKept ++ [done.length]).Pairwise (· < ·))
    (hwval' : ∀ i, i < (done ++ [v]).length → (done ++ [v]).length - C ≤ i →
        win'.getD (i % C) 0 = (done ++ [v]).getD i 0) :
    min oldMin (win'.getD ((dqKept ++ [done.length]).headD 0 % C) 0) =
      bruteMinOfWindowMax C (done ++ [v]) := by
  rw [bruteMin_concat C hC done v, if_pos hful, hmin]
  congr 1
  have hne' : dqKept ++ [done.length] ≠ [] := by simp
  have hlen' : (done ++ [v]).length = done.length + 1 := by simp
  have hdm := (hmem' ((dqKept ++ [done.length]).headD 0)).mp (headD_mem _ 0 hne')
  rw [hwval' _ hdm.2.1 hdm.1]
  have hfm := dq_front_max C hC (done ++ [v]) (dqKept ++ [done.length])
    (by omega) hsort' hne' hmem'
  rw [hfm]
  congr 1
  omega

/-- One push preserves the sliding-window invariant. -/
theorem windowInv_step (C : Nat) (hC : 1 ≤ C) (done : List Nat) (st : WindowState)
    (v : Nat) (inv : WindowInv C done st) :
    WindowInv C (done ++ [v]) (addTtlToSliceWindow C st v) := by
  obtain ⟨hidx, hwlen, hwval, hsort, hmem, hmin⟩ := inv
  have hcap : ¬C = 0 := by omega
  have hlen' : (done ++ [v]).length = done.length + 1 := by simp
  have hdrop : ∀ a b, a ∈ st.sliceWindowIdx → b ∈ st.sliceWindowIdx → a < b →
      done.getD b 0 < done.getD a 0 := by
    intro a b ha hb' hab
    obtain ⟨_, hb2, _⟩ := (hmem b).mp hb'
    exact ((hmem a).mp ha).2.2 b hab hb2
  by_cases hb : st.sliceIndex < C
  · -- growing phase: slice_index_ < cap
    have hblen : done.length < C := by omega
    have hwlenA : st.sliceWindow.length = done.length := by rw [hwlen]; omega
    have hval_dq : ∀ q ∈ st.sliceWindowIdx,
        st.sliceWindow.getD q 0 = done.getD q 0 := by
      intro q hq
      obtain ⟨hq1, hq2, _⟩ := (hmem q).mp hq
      have hv := hwval q hq2 hq1
      rwa [Nat.mod_eq_of_lt (by omega)] at hv
    have hkeptEq : popBackWhile (fun q => st.sliceWindow.getD q 0 ≤ v) st.sliceWindowIdx
        = st.sliceWindowIdx.filter (fun q => !(st.sliceWindow.getD q 0 ≤ v)) := by
      apply popBackWhile_eq_filter
      refine List.Pairwise.imp_of_mem ?_ hsort
      intro a b ha hb' hab
      simp only [decide_eq_true_eq]
      intro hle
      rw [hval_dq b hb']
      rw [hval_dq a ha] at hle
      exact le_trans (le_of_lt (hdrop a b ha hb' hab)) hle
    rw [addTtl_eq_lt C st v hcap hb, hidx]
    set dqKept := popBackWhile (fun q => st.sliceWindow.getD q 0 ≤ v) st.sliceWindowIdx
      with hdqK
    have hkept : ∀ q, q ∈ dqKept ↔
        (done.length + 1 - C ≤ q ∧ q < done.length ∧
         (∀ r, q < r → r < done.length → done.getD r 0 < done.getD q 0) ∧
         v < done.getD q 0) := by
      intro q
      rw [hkeptEq, List.mem_filter, hmem]
      constructor
      · rintro ⟨⟨h1, h2, h3⟩, h4⟩
        have hqdq : q ∈ st.sliceWindowIdx := (hmem q).mpr ⟨h1, h2, h3⟩
        simp only [Bool.not_eq_true', decide_eq_false_iff_not, Nat.not_le] at h4
        rw [hval_dq q hqdq] at h4
        exact ⟨by omega, h2, h3, h4⟩
      · rintro ⟨h1, h2, h3, h4⟩
        have hqdq : q ∈ st.sliceWindowIdx := (hmem q).mpr ⟨by omega, h2, h3⟩
        refine ⟨⟨by omega, h2, h3⟩, ?_⟩
        simp only [Bool.not_eq_true', decide_eq_false_iff_not, Nat.not_le]
        rw [hval_dq q hqdq]
        exact h4
    have hmem' := dq_mem_after C hC done v dqKept hkept
    have hsort' : (dqKept ++ [done.length]).Pairwise (· < ·) := by
      rw [List.pairwise_append]
      refine ⟨?_, List.pairwise_singleton _ _, ?_⟩
      · exact List.Pairwise.sublist (by rw [hkeptEq]; exact List.filter_sublist _)
          hsort
      · intro a ha b hbm
        rw [List.mem_singleton] at hbm
        subst hbm
        exact ((hkept a).mp ha).2.1
    have hwval' : ∀ i, i < (done ++ [v]).length → (done ++ [v]).length - C ≤ i →
        (st.sliceWindow ++ [v]).getD (i % C) 0 = (done ++ [v]).getD i 0 := by
      intro i hi _
      rw [hlen'] at hi
      by_cases hil : i < done.length
      · have hmod : i % C = i := Nat.mod_eq_of_lt (by omega)
        have hv := hwval i hil (by omega)
        rw [hmod] at hv ⊢
        rw [List.getD_append _ _ _ _ (by omega), hv, List.getD_append _ _ _ _ hil]
      · have hie : i = done.length := by omega
        subst hie
        rw [Nat.mod_eq_of_lt (by omega), getD_concat_self done v 0, ← hwlenA,
          getD_concat_self]
    by_cases hful : C ≤ done.length + 1
    · rw [if_pos hful]
      refine ⟨hlen'.symm, ?_, hwval', hsort', hmem', ?_⟩
      · simp only [List.length_append, List.length_singleton, hwlenA, hlen']
        omega
      · exact minScan_after C hC done v dqKept (st.sliceWindow ++ [v])
          st.minScanCapTtl hful hmin hmem' hsort' hwval'
    · rw [if_neg hful]
      refine ⟨hlen'.symm, ?_, hwval', hsort', hmem', ?_⟩
      · simp only [List.length_append, List.length_singleton, hwlenA, hlen']
        omega
      · rw [bruteMin_concat C hC done v, if_neg hful]
        exact hmin
  · -- steady phase: slice_index_ ≥ cap
    have hblen : C ≤ done.length := by omega
    have hwlenB : st.sliceWindow.length = C := by rw [hwlen]; omega
    have hval_dq : ∀ q ∈ st.sliceWindowIdx,
        st.sliceWindow.getD (q % C) 0 = done.getD q 0 := by
      intro q hq
      obtain ⟨hq1, hq2, _⟩ := (hmem q).mp hq
      exact hwval q hq2 hq1
    have hdropEq : st.sliceWindowIdx.dropWhile (fun q => q ≤ done.length - C)
        = st.sliceWindowIdx.filter (fun q => !(q ≤ done.length - C)) := by
      apply dropWhile_eq_filter_of_pairwise
      refine List.Pairwise.imp_of_mem ?_ hsort
      intro a b _ _ hab
      simp only [decide_eq_true_eq]
      omega
    have hdq1sorted : (st.sliceWindowIdx.filter
        (fun q => !(q ≤ done.length - C))).Pairwise (· < ·) :=
      List.Pairwise.sublist (List.filter_sublist _) hsort
    have hkeptEq : popBackWhile (fun q => st.sliceWindow.getD (q % C) 0 ≤ v)
          (st.sliceWindowIdx.filter (fun q => !(q ≤ done.length - C)))
        = (st.sliceWindowIdx.filter (fun q => !(q ≤ done.length - C))).filter
            (fun q => !(st.sliceWindow.getD (q % C) 0 ≤ v)) := by
      apply popBackWhile_eq_filter
      refine List.Pairwise.imp_of_mem ?_ hdq1sorted
      intro a b ha hb' hab
      have ha' : a ∈ st.sliceWindowIdx := (List.mem_filter.mp ha).1
      have hb'' : b ∈ st.sliceWindowIdx := (List.mem_filter.mp hb').1
      simp only [decide_eq_true_eq]
      intro hle
      rw [hval_dq b hb'']
      rw [hval_dq a ha'] at hle
      exact le_trans (le_of_lt (hdrop a b ha' hb'' hab)) hle
    rw [addTtl_eq_ge C st v hcap hb, hidx]
    set dqKept := popBackWhile (fun q => st.sliceWindow.getD (q % C) 0 ≤ v)
      (st.sliceWindowIdx.dropWhile (fun q => q ≤ done.length - C)) with hdqK
    have hkept : ∀ q, q ∈ dqKept ↔
        (done.length + 1 - C ≤ q ∧ q < done.length ∧
         (∀ r, q < r → r < done.length → done.getD r 0 < done.getD q 0) ∧
         v < done.getD q 0) := by
      intro q
      rw [show dqKept = _ from hdqK, hdropEq, hkeptEq, List.mem_filter,
        List.mem_filter, hmem]
      constructor
      · rintro ⟨⟨⟨h1, h2, h3⟩, h5⟩, h4⟩
        have hqdq : q ∈ st.sliceWindowIdx := (hmem q).mpr ⟨h1, h2, h3⟩
        simp only [Bool.not_eq_true', decide_eq_false_iff_not, Nat.not_le] at h4 h5
        rw [hval_dq q hqdq] at h4
        exact ⟨by omega, h2, h3, h4⟩
      · rintro ⟨h1, h2, h3, h4⟩
        have hqdq : q ∈ st.sliceWindowIdx := (hmem q).mpr ⟨by omega, h2, h3⟩
        refine ⟨⟨⟨by omega, h2, h3⟩, ?_⟩, ?_⟩
        · simp only [Bool.not_eq_true', decide_eq_false_iff_not, Nat.not_le]
          omega
        · simp only [Bool.not_eq_true', decide_eq_false_iff_not, Nat.not_le]
          rw [hval_dq q hqdq]
          exact h4
    have hmem' := dq_mem_after C hC done v dqKept hkept
    have hsort' : (dqKept ++ [done.length]).Pairwise (· < ·) := by
      rw [List.pairwise_append]
      refine ⟨?_, List.pairwise_singleton _ _, ?_⟩
      · refine List.Pairwise.sublist ?_ hsort
        rw [show dqKept = _ from hdqK, hdropEq, hkeptEq]
        exact List.Sublist.trans (List.filter_sublist _) (List.filter_sublist _)
      · intro a ha b hbm
        rw [List.mem_singleton] at hbm
        subst hbm
        exact ((hkept a).mp ha).2.1
    have hwval' : ∀ i, i < (done ++ [v]).length → (done ++ [v]).length - C ≤ i →
        (st.sliceWindow.set (done.length % C) v).getD (i % C) 0 =
          (done ++ [v]).getD i 0 := by
      intro i hi hilo
      rw [hlen'] at hi hilo
      by_cases hil : i < done.length
      · have hne : done.length % C ≠ i % C :=
          (mod_ne_of_close i done.length C (by omega) (by omega)).symm
        rw [getD_set_ne _ _ _ _ _ hne, hwval i hil (by omega),
          List.getD_append _ _ _ _ hil]
      · have hie : i = done.length := by omega
        subst hie
        rw [getD_set_self _ _ _ _ (by rw [hwlenB]; exact Nat.mod_lt _ (by omega)),
          getD_concat_self]
    refine ⟨hlen'.symm, ?_, hwval', hsort', hmem', ?_⟩
    · simp only [List.length_set, hwlenB, hlen']
      omega
    · exact minScan_after C hC done v dqKept (st.sliceWindow.set (done.length % C) v)
        st.minScanCapTtl (by omega) hmin hmem' hsort' hwval'

/-- The invariant holds after any sequence of pushes from the fresh state. -/
theorem windowInv_run (C : Nat) (hC : 1 ≤ C) (vals : List Nat) :
    WindowInv C vals (runWindow C vals) := by
  induction vals using List.reverseRecOn with
  | nil => exact windowInv_init C hC
  | append_singleton xs a ih =>
    rw [runWindow, List.foldl_concat]
    exact windowInv_step C hC xs (runWindow C xs) a ih

/-- Once the window has filled, the brute-force minimum-of-window-maxima is
below the sentinel provided every sample is. -/
theorem bruteMinOfWindowMax_lt_sentinel (C : Nat) (vals : List Nat) (_hC : 1 ≤ C)
    (hN : C ≤ vals.length) (hvals : ∀ x ∈ vals, x < kMaxUint64) :
    bruteMinOfWindowMax C vals < kMaxUint64 := by
  have hwm : windowMaxAt C vals 0 < kMaxUint64 := by
    unfold windowMaxAt
    have : List.foldl max 0 ((List.range C).map (fun j => vals.getD (0 + j) 0)) ≤
        kMaxUint64 - 1 := by
      apply foldl_max_le
      · unfold kMaxUint64; omega
      · intro a ha
        obtain ⟨j, hj, rfl⟩ := List.mem_map.mp ha
        rw [List.mem_range] at hj
        have hjlen : 0 + j < vals.length := by omega
        rw [List.getD_eq_getElem vals 0 hjlen]
        have := hvals _ (List.getElem_mem hjlen)
        omega
    unfold kMaxUint64 at this ⊢
    omega
  have hmem0 : windowMaxAt C vals 0 ∈
      (List.range (vals.length + 1 - C)).map (windowMaxAt C vals) :=
    List.mem_map.mpr ⟨0, List.mem_range.mpr (by omega), rfl⟩
  exact lt_of_le_of_lt (foldl_min_le_mem _ _ _ hmem0) hwm

/-- C1, as the code actually behaves: with capacity `C ≥ 1` and at least `C`
pushes of samples below the sentinel, the tracker's result is the minimum,
over all fully-occurred windows of `C` consecutive samples, of that window's
*maximum*; on the spec's own scenario (`scan_cap = 3`, pushes
`[5,3,8,2,9,4]`) the result is `8`, not `2`. -/
theorem c1_tracker_computes_min_of_window_maxima :
    (∀ (C : Nat) (vals : List Nat), 1 ≤ C → C ≤ vals.length →
      (∀ x ∈ vals, x < kMaxUint64) →
      trackerResult (runWindow C vals) = some (bruteMinOfWindowMax C vals)) ∧
    trackerResult (runWindow 3 [5, 3, 8, 2, 9, 4]) = some 8 := by
  constructor
  · intro C vals hC hN hvals
    have hinv := windowInv_run C hC vals
    rw [trackerResult, hinv.min_eq,
      if_pos (bruteMinOfWindowMax_lt_sentinel C vals hC hN hvals)]
  · decide

/-- Witness: the general statement of `c1_tracker_computes_min_of_window_maxima`
evaluated on the spec's scenario. -/
theorem c1_witness :
    trackerResult (runWindow 3 [5, 3, 8, 2, 9, 4]) =
      some (bruteMinOfWindowMax 3 [5, 3, 8, 2, 9, 4]) :=
  c1_tracker_computes_min_of_window_maxima.1 3 [5, 3, 8, 2, 9, 4]
    (by decide) (by decide) (by decide)

/-- C1 counterexample: on the spec's scenario the tracker does *not* return
the brute-force minimum over window minimums (which is 2); it returns 8. -/
theorem c1_counterexample :
    trackerResult (runWindow 3 [5, 3, 8, 2, 9, 4]) ≠
      some (bruteMinOfWindowMin 3 [5, 3, 8, 2, 9, 4]) := by
  decide

/-- C3, as the code actually behaves: at every point of the push sequence the
deque's positions are strictly increasing front to back, increasing position
implies strictly *decreasing* stored value, and (once the window has filled)
the front references the *maximum* of the last `cap` samples. -/
theorem c3_deque_monotone (cap : Nat) (vals : List Nat) (hcap : 1 ≤ cap) :
    (runWindow cap vals).sliceWindowIdx.Pairwise (· < ·) ∧
    (runWindow cap vals).sliceWindowIdx.Pairwise (fun q q' =>
      (runWindow cap vals).sliceWindow.getD (q' % cap) 0 <
      (runWindow cap vals).sliceWindow.getD (q % cap) 0) ∧
    (cap ≤ vals.length →
      (runWindow cap vals).sliceWindow.getD
        ((runWindow cap vals).sliceWindowIdx.headD 0 % cap) 0 =
      windowMaxAt cap vals (vals.length - cap)) := by
  obtain ⟨hidx, hwlen, hwval, hsort, hmem, hmin⟩ := windowInv_run cap hcap vals
  refine ⟨hsort, ?_, ?_⟩
  · refine List.Pairwise.imp_of_mem ?_ hsort
    intro a b ha hb hab
    have ha' := (hmem a).mp ha
    have hb' := (hmem b).mp hb
    rw [hwval a ha'.2.1 ha'.1, hwval b hb'.2.1 hb'.1]
    exact ha'.2.2 b hab hb'.2.1
  · intro hfull
    have hne : (runWindow cap vals).sliceWindowIdx ≠ [] := by
      intro hnil
      have hm : vals.length - 1 ∈ (runWindow cap vals).sliceWindowIdx := by
        rw [hmem]
        exact ⟨by omega, by omega, fun r h1 h2 => by omega⟩
      rw [hnil] at hm
      cases hm
    have hd := (hmem _).mp (headD_mem _ 0 hne)
    rw [hwval _ hd.2.1 hd.1]
    exact dq_front_max cap hcap vals _ hfull hsort hne hmem

/-- Witness: `c3_deque_monotone` evaluated on the spec's scenario. -/
theorem c3_witness :
    (runWindow 3 [5, 3, 8, 2, 9, 4]).sliceWindowIdx.Pairwise (· < ·) ∧
    (runWindow 3 [5, 3, 8, 2, 9, 4]).sliceWindowIdx.Pairwise (fun q q' =>
      (runWindow 3 [5, 3, 8, 2, 9, 4]).sliceWindow.getD (q' % 3) 0 <
      (runWindow 3 [5, 3, 8, 2, 9, 4]).sliceWindow.getD (q % 3) 0) ∧
    (3 ≤ [5, 3, 8, 2, 9, 4].length →
      (runWindow 3 [5, 3, 8, 2, 9, 4]).sliceWindow.getD
        ((runWindow 3 [5, 3, 8, 2, 9, 4]).sliceWindowIdx.headD 0 % 3) 0 =
      windowMaxAt 3 [5, 3, 8, 2, 9, 4] ([5, 3, 8, 2, 9, 4].length - 3)) :=
  c3_deque_monotone 3 [5, 3, 8, 2, 9, 4] (by decide)

/-- C3 counterexample: after pushing `[5, 3]` with capacity 3 the deque holds
positions `[0, 1]` whose stored values are `5 > 3` — increasing position gives
*decreasing* stored value, refuting the claimed direction. -/
theorem c3_counterexample :
    ¬ ∀ (cap : Nat) (vals : List Nat), 1 ≤ cap →
        ((runWindow cap vals).sliceWindowIdx.Pairwise (· < ·) ∧
         (runWindow cap vals).sliceWindowIdx.Pairwise (fun q q' =>
           (runWindow cap vals).sliceWindow.getD (q % cap) 0 ≤
           (runWindow cap vals).sliceWindow.getD (q' % cap) 0)) := by
  intro h
  have h2 := (h 3 [5, 3] (by omega)).2
  rw [show runWindow 3 [5, 3] =
      { sliceWindow := [5, 3], sliceWindowIdx := [0, 1], sliceIndex := 2,
        minScanCapTtl := kMaxUint64 } from by decide] at h2
  have h01 := List.rel_of_pairwise_cons h2 (List.mem_cons_self 1 [])
  exact absurd h01 (by decide)

/-! ## The collector: entry classification, `InternalAdd`, `Finish` -/

/-- Modelled from the spec: `EntryType` lives in `db/dbformat.h`, which is not
among the sources; the spec fixes the closed kind set — data-bearing
`Put`/`Merge`/`MergeIndex`/`ValueIndex`, tombstone-like
`Delete`/`SingleDelete`/`RangeDeletion` (ordinals below the `Other`
boundary), and inert `Other`. -/
inductive EntryType where
  | kEntryPut
  | kEntryDelete
  | kEntrySingleDelete
  | kEntryMerge
  | kEntryRangeDeletion
  | kEntryValueIndex
  | kEntryMergeIndex
  | kEntryOther
deriving DecidableEq, Repr

/-- The data-bearing test of `InternalAdd` (lines 162-163):
`kEntryMerge || kEntryPut || kEntryMergeIndex || kEntryValueIndex`. -/
def dataBearing : EntryType → Bool
  | .kEntryPut => true
  | .kEntryMerge => true
  | .kEntryMergeIndex => true
  | .kEntryValueIndex => true
  | _ => false

/-- The tombstone test of `InternalAdd` (line 190): `entry_type < kEntryOther`
once the data-bearing kinds have been peeled off. -/
def tombstoneLike : EntryType → Bool
  | .kEntryDelete => true
  | .kEntrySingleDelete => true
  | .kEntryRangeDeletion => true
  | _ => false

/-- Model of `rocksdb::Status`, restricted to the shapes this module produces or
passes through: ok, invalid-argument (from the key adapter), and any other
error (e.g. from the pluggable TTL extractor), carried opaquely. -/
inductive Status where
  | ok
  | invalidArgument (msg : String)
  | otherError (code : Nat)
deriving DecidableEq, Repr

/-- Test `Status::ok()`. -/
def Status.isOk : Status → Bool
  | .ok => true
  | _ => false

/-- Mutable state of `TtlIntTblPropCollector`: the histogram is modelled by
the multiset (list) of samples fed to `HistogramImpl::Add`, which together
with the opaque percentile estimator is all `Finish` consumes. -/
structure CollectorState where
  histogram : List Nat
  window : WindowState
  totalEntries : Nat
  ttlEntries : Nat
deriving Repr, DecidableEq

/-- Freshly-created collector. -/
def initCollector : CollectorState :=
  { histogram := [], window := initWindowState, totalEntries := 0, ttlEntries := 0 }

/-- Translation of `TtlIntTblPropCollector::InternalAdd` (lines 158-195).  The pluggable
extractor's outcome for this entry is passed in as `(status, has_ttl, ttl)`,
mirroring the C++ out-parameters; the C++ member mutations persist even when
a non-ok status is returned, so the function returns the status together
with the (possibly partially updated) state. -/
def internalAdd (cap : Nat) (st : CollectorState) (et : EntryType)
    (ex : Status × Bool × Nat) : Status × CollectorState :=
  let st1 := { st with totalEntries := st.totalEntries + 1 }
  if dataBearing et then
    if ex.1.isOk = false then (ex.1, st1)
    else if ex.2.1 then
      let keyTtl := min ex.2.2 kFiftyYearSecondsNumber
      (Status.ok,
        { st1 with
          ttlEntries := st1.ttlEntries + 1,
          histogram := st1.histogram ++ [keyTtl],
          window := addTtlToSliceWindow cap st1.window keyTtl })
    else (Status.ok, { st1 with window := resetWindow st1.window })
  else if tombstoneLike et then
    (Status.ok, { st1 with window := addTtlToSliceWindow cap st1.window 0 })
  else (Status.ok, st1)

/-- Run a whole entry stream through `InternalAdd` from the fresh collector. -/
def runCollector (cap : Nat) (entries : List (EntryType × Status × Bool × Nat)) :
    CollectorState :=
  entries.foldl (fun st e => (internalAdd cap st e.1 e.2).2) initCollector

/-- The `earliest_time_begin_compact` computation of `Finish` (lines 124-138).
`gc` is `ttl_options_.ttl_gc_ratio` (a C++ double, modelled as a rational),
`percentile` abstracts `static_cast<uint64_t>(histogram_.Percentile(...))`
of the opaque estimator, and uint64 addition wraps modulo `2 ^ 64`. -/
def finishEarliest (gc : ℚ) (mandatory : Nat) (histEmpty : Bool)
    (percentile ttlEntries totalEntries now : Nat) : Nat :=
  let e0 := if histEmpty = false ∧ gc * (totalEntries : ℚ) ≤ (ttlEntries : ℚ)
            then (now + percentile) % 2 ^ 64
            else kMaxUint64
  if 0 < mandatory then min e0 ((now + mandatory) % 2 ^ 64) else e0

/-- The `latest_time_end_compact` computation of `Finish` (lines 140-143). -/
def finishLatest (minScan now : Nat) : Nat :=
  if minScan < kMaxUint64 then (minScan + now) % 2 ^ 64 else kMaxUint64

/-! ## Varint encoding and the property-map accessors -/

/-- Modelled from the spec: `PutVarint64` from `util/coding.h` is not among
the sources; the spec fixes the format as little-endian base-128
variable-length encoding of a 64-bit unsigned integer (continuation bytes
carry the high bit, the final byte is below 128). -/
def putVarint64 (v : Nat) : List Nat :=
  if h : v < 128 then [v]
  else (v % 128 + 128) :: putVarint64 (v / 128)
decreasing_by exact Nat.div_lt_self (by omega) (by omega)

/-- Modelled from the spec: `GetVarint64` from `util/coding.h` is not among
the sources; decoding accumulates 7-bit groups little-endian, fails when the
bytes end on a continuation byte or when the shift would exceed 63 bits, and
ignores any bytes after the terminating one (matching the slice-advancing
reader). -/
def getVarint64Core : List Nat → Nat → Option Nat
  | [], _ => none
  | b :: rest, shift =>
    if 63 < shift then none
    else if b < 128 then some (b * 2 ^ shift)
    else
      match getVarint64Core rest (shift + 7) with
      | none => none
      | some w => some ((b - 128) * 2 ^ shift + w)

/-- Property maps (`UserCollectedProperties`): string names to byte strings. -/
def PropMap : Type := String → Option (List Nat)

/-- Semantics of `std::map::insert`: inserts only if the name is not already present. -/
def mapInsert (props : PropMap) (k : String) (bytes : List Nat) : PropMap :=
  fun n => if n = k then (match props k with
                          | some old => some old
                          | none => some bytes)
           else props n

/-- Name `TablePropertiesNames::kEarliestTimeBeginCompact` (opaque fixed name). -/
def kEarliestTimeBeginCompact : String := "rocksdb.earliest.time.begin.compact"

/-- Name `TablePropertiesNames::kLatestTimeEndCompact` (opaque fixed name). -/
def kLatestTimeEndCompact : String := "rocksdb.latest.time.end.compact"

/-- Name `TablePropertiesNames::kMergeOperands` (opaque fixed name). -/
def kMergeOperands : String := "rocksdb.merge.operands"

/-- Translation of `GetUint64Property` (lines 20-37): absent name or failed varint decode
give value 0 with the presence flag false; otherwise the decoded value with
the flag true.  Returns `(value, property_present)`. -/
def GetUint64Property (props : PropMap) (name : String) : Nat × Bool :=
  match props name with
  | none => (0, false)
  | some raw =>
    match getVarint64Core raw 0 with
    | some val => (val, true)
    | none => (0, false)

/-- Translation of `GetMergeOperands` (lines 251-255). -/
def GetMergeOperands (props : PropMap) : Nat × Bool :=
  GetUint64Property props kMergeOperands

/-- Translation of `GetCompactionTimePoint` (lines 257-277): reads both time points,
substituting `port::kMaxUint64` whenever the property is not present. -/
def GetCompactionTimePoint (props : PropMap) : Nat × Nat :=
  let e := GetUint64Property props kEarliestTimeBeginCompact
  let l := GetUint64Property props kLatestTimeEndCompact
  ((if e.2 then e.1 else kMaxUint64), (if l.2 then l.1 else kMaxUint64))

/-- The property insertions performed at the end of `Finish` (lines 144-150). -/
def finishProperties (props : PropMap) (earliest latest : Nat) : PropMap :=
  mapInsert (mapInsert props kEarliestTimeBeginCompact (putVarint64 earliest))
    kLatestTimeEndCompact (putVarint64 latest)

/-! ## C2: reset on a no-TTL entry -/

/-- While the push counter stays below the capacity, no push touches the
running minimum (the min-update fires only once `slice_index_ ≥ cap`). -/
theorem minScan_preserved (cap : Nat) :
    ∀ (vals : List Nat) (st : WindowState), st.sliceIndex + vals.length < cap →
      (vals.foldl (addTtlToSliceWindow cap) st).minScanCapTtl = st.minScanCapTtl := by
  intro vals
  induction vals with
  | nil => intro st _; rfl
  | cons a t ih =>
    intro st h
    have hcap : ¬cap = 0 := by omega
    have hlt : st.sliceIndex < cap := by
      have := List.length_cons a t
      omega
    have hstep := addTtl_eq_lt cap st a hcap hlt
    rw [if_neg (by
      have := List.length_cons a t
      omega : ¬cap ≤ st.sliceIndex + 1)] at hstep
    rw [List.foldl_cons, hstep]
    exact ih _ (by
      show st.sliceIndex + 1 + t.length < cap
      have := List.length_cons a t
      omega)

/-- C2, as the code actually behaves: a data-bearing entry with no TTL clears
the circular buffer, the deque and the push counter, but *not* the running
cumulative minimum; hence fewer than `scan_cap` subsequent pushes leave the
tracker result exactly what it was before the reset (which is "unknown" only
if no window had completed before). -/
theorem c2_reset_keeps_running_min (cap : Nat) (st : CollectorState)
    (et : EntryType) (t : Nat) (hdb : dataBearing et = true) :
    ((internalAdd cap st et (Status.ok, false, t)).2.window =
      { sliceWindow := [], sliceWindowIdx := [], sliceIndex := 0,
        minScanCapTtl := st.window.minScanCapTtl }) ∧
    (∀ vals : List Nat, vals.length < cap →
      trackerResult (vals.foldl (addTtlToSliceWindow cap)
        (internalAdd cap st et (Status.ok, false, t)).2.window) =
      trackerResult st.window) := by
  have hw : (internalAdd cap st et (Status.ok, false, t)).2.window =
      { sliceWindow := [], sliceWindowIdx := [], sliceIndex := 0,
        minScanCapTtl := st.window.minScanCapTtl } := by
    simp [internalAdd, hdb, Status.isOk, resetWindow]
  refine ⟨hw, ?_⟩
  intro vals hlen
  rw [hw]
  have hp := minScan_preserved cap vals
    { sliceWindow := [], sliceWindowIdx := [], sliceIndex := 0,
      minScanCapTtl := st.window.minScanCapTtl }
    (by show 0 + vals.length < cap; omega)
  unfold trackerResult
  rw [hp]

/-- Witness: `c2_reset_keeps_running_min` on a concrete state and push list. -/
theorem c2_witness :
    ((internalAdd 3 initCollector EntryType.kEntryPut (Status.ok, false, 0)).2.window =
      { sliceWindow := [], sliceWindowIdx := [], sliceIndex := 0,
        minScanCapTtl := initCollector.window.minScanCapTtl }) ∧
    trackerResult ([7, 9].foldl (addTtlToSliceWindow 3)
        (internalAdd 3 initCollector EntryType.kEntryPut (Status.ok, false, 0)).2.window) =
      trackerResult initCollector.window :=
  ⟨(c2_reset_keeps_running_min 3 initCollector EntryType.kEntryPut 0 rfl).1,
   (c2_reset_keeps_running_min 3 initCollector EntryType.kEntryPut 0 rfl).2
     [7, 9] (by decide)⟩

/-- C2 counterexample: with `scan_cap = 1`, one TTL push (value 5) fills a
window, then a data-bearing no-TTL entry resets; the claim says the tracker
result is now "unknown" like a fresh tracker, but the running minimum
survives the reset and the result is still `some 5`. -/
theorem c2_counterexample :
    trackerResult (internalAdd 1
        (internalAdd 1 initCollector EntryType.kEntryPut (Status.ok, true, 5)).2
        EntryType.kEntryPut (Status.ok, false, 0)).2.window ≠ none := by
  decide

/-! ## C7: extractor error propagation -/

theorem Status.isOk_false_iff (s : Status) : s.isOk = false ↔ s ≠ Status.ok := by
  cases s <;> simp [Status.isOk]

theorem Status.isOk_true_iff (s : Status) : s.isOk = true ↔ s = Status.ok := by
  cases s <;> simp [Status.isOk]

/-- C7: `InternalAdd` returns a non-ok status exactly when the entry is
data-bearing and the extractor failed, and then the extractor's status is
returned verbatim while only the unconditional `++total_entries_` has
changed the state (histogram, window and ttl counter untouched);
tombstone-like and inert entries always return ok. -/
theorem c7_extractor_error_propagation (cap : Nat) (st : CollectorState)
    (et : EntryType) (ex : Status × Bool × Nat) :
    ((internalAdd cap st et ex).1 ≠ Status.ok ↔
      (dataBearing et = true ∧ ex.1 ≠ Status.ok)) ∧
    (dataBearing et = true → ex.1 ≠ Status.ok →
      (internalAdd cap st et ex).1 = ex.1 ∧
      (internalAdd cap st et ex).2 =
        { st with totalEntries := st.totalEntries + 1 }) := by
  obtain ⟨s, ht, t⟩ := ex
  by_cases hdb : dataBearing et
  · by_cases hok : s = Status.ok
    · subst hok
      have hko : Status.ok.isOk = false ↔ False := by simp [Status.isOk]
      by_cases hht : ht
      · subst hht
        simp [internalAdd, hdb, Status.isOk]
      · have hhf : ht = false := by simpa using hht
        subst hhf
        simp [internalAdd, hdb, Status.isOk]
    · have hof : s.isOk = false := (Status.isOk_false_iff s).mpr hok
      simp [internalAdd, hdb, hof, hok]
  · have hdb' : dataBearing et = false := by simpa using hdb
    by_cases hts : tombstoneLike et
    · simp [internalAdd, hdb', hts]
    · have hts' : tombstoneLike et = false := by simpa using hts
      simp [internalAdd, hdb', hts']

/-- Witness: `c7_extractor_error_propagation` on a failing extractor. -/
theorem c7_witness :
    (internalAdd 1 initCollector EntryType.kEntryPut
        (Status.otherError 42, false, 0)).1 = Status.otherError 42 ∧
    (internalAdd 1 initCollector EntryType.kEntryPut
        (Status.otherError 42, false, 0)).2 =
      { initCollector with totalEntries := initCollector.totalEntries + 1 } :=
  (c7_extractor_error_propagation 1 initCollector EntryType.kEntryPut
    (Status.otherError 42, false, 0)).2 rfl (by decide)

/-! ## C6: the fifty-year clamp -/

/-- A push only ever adds the pushed value itself to the circular buffer. -/
theorem addTtl_window_subset (cap : Nat) (st : WindowState) (v x : Nat)
    (hx : x ∈ (addTtlToSliceWindow cap st v).sliceWindow) :
    x ∈ st.sliceWindow ∨ x = v := by
  by_cases hcap : cap = 0
  · rw [addTtlToSliceWindow, if_pos hcap] at hx
    exact Or.inl hx
  · by_cases hb : st.sliceIndex < cap
    · rw [addTtl_eq_lt cap st v hcap hb] at hx
      by_cases hful : cap ≤ st.sliceIndex + 1
      · rw [if_pos hful] at hx
        rcases List.mem_append.mp hx with h | h
        · exact Or.inl h
        · exact Or.inr (List.mem_singleton.mp h)
      · rw [if_neg hful] at hx
        rcases List.mem_append.mp hx with h | h
        · exact Or.inl h
        · exact Or.inr (List.mem_singleton.mp h)
    · rw [addTtl_eq_ge cap st v hcap hb] at hx
      exact List.mem_or_eq_of_mem_set hx

/-- One `InternalAdd` keeps all histogram and window samples at or below the
fifty-year ceiling. -/
theorem samples_bounded_step (cap : Nat) (st : CollectorState)
    (e : EntryType × Status × Bool × Nat)
    (hh : ∀ x ∈ st.histogram, x ≤ kFiftyYearSecondsNumber)
    (hw : ∀ x ∈ st.window.sliceWindow, x ≤ kFiftyYearSecondsNumber) :
    (∀ x ∈ (internalAdd cap st e.1 e.2).2.histogram, x ≤ kFiftyYearSecondsNumber) ∧
    (∀ x ∈ (internalAdd cap st e.1 e.2).2.window.sliceWindow,
      x ≤ kFiftyYearSecondsNumber) := by
  obtain ⟨et, s, ht, t⟩ := e
  by_cases hdb : dataBearing et
  · by_cases hok : s.isOk = false
    · simp only [internalAdd, hdb, if_true, hok, if_pos rfl]
      exact ⟨hh, hw⟩
    · have hok' : s.isOk = true := by simpa using hok
      by_cases hht : ht
      · subst hht
        simp only [internalAdd, hdb, if_true, hok']
        refine ⟨?_, ?_⟩
        · intro x hx
          rcases List.mem_append.mp hx with h | h
          · exact hh x h
          · rw [List.mem_singleton.mp h]
            omega
        · intro x hx
          rcases addTtl_window_subset cap st.window _ x hx with h | h
          · exact hw x h
          · rw [h]
            omega
      · have hhf : ht = false := by simpa using hht
        subst hhf
        simp only [internalAdd, hdb, if_true, hok', resetWindow]
        refine ⟨hh, ?_⟩
        intro x hx
        cases hx
  · have hdb' : dataBearing et = false := by simpa using hdb
    by_cases hts : tombstoneLike et
    · simp only [internalAdd, hdb', hts, if_true, Bool.false_eq_true, if_false]
      refine ⟨hh, ?_⟩
      intro x hx
      rcases addTtl_window_subset cap st.window 0 x hx with h | h
      · exact hw x h
      · rw [h]
        omega
    · have hts' : tombstoneLike et = false := by simpa using hts
      simp only [internalAdd, hdb', hts', Bool.false_eq_true, if_false]
      exact ⟨hh, hw⟩

/-- Along any entry stream, no histogram or window sample exceeds the clamp. -/
theorem samples_bounded_run (cap : Nat)
    (entries : List (EntryType × Status × Bool × Nat)) :
    (∀ x ∈ (runCollector cap entries).histogram, x ≤ kFiftyYearSecondsNumber) ∧
    (∀ x ∈ (runCollector cap entries).window.sliceWindow,
      x ≤ kFiftyYearSecondsNumber) := by
  induction entries using List.reverseRecOn with
  | nil =>
    constructor <;> intro x hx <;> cases hx
  | append_singleton es e ih =>
    rw [runCollector, List.foldl_concat]
    exact samples_bounded_step cap (runCollector cap es) e ih.1 ih.2

/-- C6: any raw TTL above the fifty-year ceiling contributes exactly like the
ceiling itself (same histogram and window update), and consequently no
sample in the histogram or circular buffer ever exceeds the ceiling. -/
theorem c6_ttl_clamped :
    (∀ (cap : Nat) (st : CollectorState) (et : EntryType) (raw : Nat),
      dataBearing et = true → kFiftyYearSecondsNumber < raw →
      internalAdd cap st et (Status.ok, true, raw) =
        internalAdd cap st et (Status.ok, true, kFiftyYearSecondsNumber)) ∧
    (∀ (cap : Nat) (entries : List (EntryType × Status × Bool × Nat)),
      (∀ x ∈ (runCollector cap entries).histogram, x ≤ kFiftyYearSecondsNumber) ∧
      (∀ x ∈ (runCollector cap entries).window.sliceWindow,
        x ≤ kFiftyYearSecondsNumber)) := by
  constructor
  · intro cap st et raw hdb hraw
    have hmin1 : min raw kFiftyYearSecondsNumber = kFiftyYearSecondsNumber := by
      omega
    have hmin2 : min kFiftyYearSecondsNumber kFiftyYearSecondsNumber =
        kFiftyYearSecondsNumber := by omega
    simp only [internalAdd, hdb, if_true, Status.isOk, hmin1, hmin2]
  · exact samples_bounded_run

/-- Witness: `c6_ttl_clamped` on concrete inputs. -/
theorem c6_witness :
    internalAdd 3 initCollector EntryType.kEntryPut
        (Status.ok, true, kFiftyYearSecondsNumber + 1) =
      internalAdd 3 initCollector EntryType.kEntryPut
        (Status.ok, true, kFiftyYearSecondsNumber) ∧
    ((∀ x ∈ (runCollector 3 [(EntryType.kEntryPut, Status.ok, true, 9)]).histogram,
        x ≤ kFiftyYearSecondsNumber) ∧
     (∀ x ∈ (runCollector 3
          [(EntryType.kEntryPut, Status.ok, true, 9)]).window.sliceWindow,
        x ≤ kFiftyYearSecondsNumber)) :=
  ⟨c6_ttl_clamped.1 3 initCollector EntryType.kEntryPut
      (kFiftyYearSecondsNumber + 1) rfl (by omega),
   c6_ttl_clamped.2 3 [(EntryType.kEntryPut, Status.ok, true, 9)]⟩

/-! ## C4 and C5: the earliest compaction bound -/

/-- C4, as the code actually behaves (stated without uint64 wraparound): the
ratio-gated percentile value is produced exactly when the histogram is
non-empty and `ttl_entries ≥ gc_ratio · total_entries`, but the
mandatory-compaction clamp is applied to *both* branches — so with a
positive `mandatory_compaction_seconds` the "unknown" branch produces
`min(sentinel, now + mandatory)` = `now + mandatory`, not the sentinel. -/
theorem c4_finishEarliest_characterization (gc : ℚ) (mandatory : Nat)
    (histEmpty : Bool) (percentile ttlEntries totalEntries now : Nat)
    (hp : now + percentile < 2 ^ 64) (hm : now + mandatory < 2 ^ 64) :
    ((histEmpty = true ∨ (ttlEntries : ℚ) < gc * (totalEntries : ℚ)) →
      (mandatory = 0 →
        finishEarliest gc mandatory histEmpty percentile ttlEntries totalEntries now =
          kMaxUint64) ∧
      (0 < mandatory →
        finishEarliest gc mandatory histEmpty percentile ttlEntries totalEntries now =
          min kMaxUint64 (now + mandatory))) ∧
    ((histEmpty = false ∧ gc * (totalEntries : ℚ) ≤ (ttlEntries : ℚ)) →
      (mandatory = 0 →
        finishEarliest gc mandatory histEmpty percentile ttlEntries totalEntries now =
          now + percentile) ∧
      (0 < mandatory →
        finishEarliest gc mandatory histEmpty percentile ttlEntries totalEntries now =
          min (now + percentile) (now + mandatory))) := by
  have hpm : (now + percentile) % 2 ^ 64 = now + percentile := Nat.mod_eq_of_lt hp
  have hmm : (now + mandatory) % 2 ^ 64 = now + mandatory := Nat.mod_eq_of_lt hm
  constructor
  · intro hsent
    have hcond : ¬(histEmpty = false ∧ gc * (totalEntries : ℚ) ≤ (ttlEntries : ℚ)) := by
      rcases hsent with h | h
      · rintro ⟨hf, _⟩
        rw [h] at hf
        cases hf
      · rintro ⟨_, hle⟩
        exact absurd hle (not_le.mpr h)
    constructor
    · intro hm0
      subst hm0
      simp only [finishEarliest, if_neg hcond, Nat.lt_irrefl, if_false]
    · intro hmpos
      simp only [finishEarliest, if_neg hcond, if_pos hmpos, hmm]
  · intro hcond
    constructor
    · intro hm0
      subst hm0
      simp only [finishEarliest, if_pos hcond, Nat.lt_irrefl, if_false, hpm]
    · intro hmpos
      simp only [finishEarliest, if_pos hcond, if_pos hmpos, hpm, hmm]

/-- Witness: `c4_finishEarliest_characterization` on both branches: empty
histogram with a positive mandatory bound, and a satisfied ratio gate with
the bound disabled. -/
theorem c4_witness :
    finishEarliest (1 / 2 : ℚ) 3600 true 0 0 0 1000 = min kMaxUint64 (1000 + 3600) ∧
    finishEarliest (1 / 2 : ℚ) 0 false 50 6 10 1000 = 1000 + 50 :=
  ⟨((c4_finishEarliest_characterization (1 / 2 : ℚ) 3600 true 0 0 0 1000
      (by norm_num) (by norm_num)).1 (Or.inl rfl)).2 (by omega),
   ((c4_finishEarliest_characterization (1 / 2 : ℚ) 0 false 50 6 10 1000
      (by norm_num) (by norm_num)).2 ⟨rfl, by norm_num⟩).1 rfl⟩

/-- C4 counterexample: the claim says the written value equals the sentinel
whenever the histogram is empty, but with an empty histogram,
`mandatory_compaction_seconds = 3600` and `now = 1000` the code writes
`4600`, not the sentinel. -/
theorem c4_counterexample :
    finishEarliest (1 / 2 : ℚ) 3600 true 0 0 0 1000 ≠ kMaxUint64 := by
  have hcond : ¬((true : Bool) = false ∧
      (1 / 2 : ℚ) * ((0 : Nat) : ℚ) ≤ ((0 : Nat) : ℚ)) := by
    rintro ⟨hf, _⟩
    cases hf
  simp only [finishEarliest, if_neg hcond, if_pos (by omega : 0 < 3600)]
  unfold kMaxUint64
  norm_num

/-- C5, as the code actually behaves: for positive mandatory bounds (and no
uint64 wraparound) the written earliest bound is monotone — a smaller
`mandatory_compaction_seconds` never increases the result.  (At `mandatory =
0` the clamp is disabled entirely, which breaks the claim as stated.) -/
theorem c5_monotone_in_mandatory (gc : ℚ) (histEmpty : Bool)
    (percentile ttlEntries totalEntries now m1 m2 : Nat)
    (hpos : 1 ≤ m1) (h12 : m1 ≤ m2) (hov : now + m2 < 2 ^ 64) :
    finishEarliest gc m1 histEmpty percentile ttlEntries totalEntries now ≤
    finishEarliest gc m2 histEmpty percentile ttlEntries totalEntries now := by
  simp only [finishEarliest]
  rw [if_pos (by omega : 0 < m1), if_pos (by omega : 0 < m2),
    Nat.mod_eq_of_lt (show now + m1 < 2 ^ 64 by omega),
    Nat.mod_eq_of_lt (show now + m2 < 2 ^ 64 by omega)]
  exact min_le_min (le_refl _) (by omega)

/-- Witness: `c5_monotone_in_mandatory` on concrete bounds. -/
theorem c5_witness :
    finishEarliest (1 / 2 : ℚ) 10 true 0 0 0 100 ≤
    finishEarliest (1 / 2 : ℚ) 20 true 0 0 0 100 :=
  c5_monotone_in_mandatory (1 / 2 : ℚ) true 0 0 0 100 10 20
    (by omega) (by omega) (by norm_num)

/-- C5 counterexample: decreasing the mandatory bound from 1 to 0 *increases*
the written value (with an empty histogram the clamped result `now + 1 = 1`
jumps to the sentinel once the clamp is disabled), refuting "choosing a
smaller mandatory bound never increases the result". -/
theorem c5_counterexample :
    finishEarliest (1 / 2 : ℚ) 1 true 0 0 0 0 <
    finishEarliest (1 / 2 : ℚ) 0 true 0 0 0 0 := by
  have hcond : ¬((true : Bool) = false ∧
      (1 / 2 : ℚ) * ((0 : Nat) : ℚ) ≤ ((0 : Nat) : ℚ)) := by
    rintro ⟨hf, _⟩
    cases hf
  simp only [finishEarliest, if_neg hcond, if_pos (by omega : 0 < 1),
    Nat.lt_irrefl, if_false]
  unfold kMaxUint64
  norm_num

/-! ## C8 and C10: varint round trip and the read accessors -/

/-- Decoding an encoding at shift `s` recovers the value times `2 ^ s`. -/
theorem getVarint64_putVarint64 (v : Nat) :
    ∀ shift, shift ≤ 63 → v < 2 ^ (64 - shift) →
      getVarint64Core (putVarint64 v) shift = some (v * 2 ^ shift) := by
  induction v using Nat.strong_induction_on with
  | _ v ih =>
    intro shift hs hv
    by_cases h : v < 128
    · rw [putVarint64, dif_pos h]
      unfold getVarint64Core
      rw [if_neg (by omega), if_pos h]
    · rw [putVarint64, dif_neg h]
      unfold getVarint64Core
      rw [if_neg (by omega : ¬63 < shift), if_neg (by omega : ¬v % 128 + 128 < 128)]
      have hshift : shift + 7 ≤ 63 := by
        have h128 : (128 : Nat) < 2 ^ (64 - shift) := by omega
        have h7 : (2 : Nat) ^ 7 < 2 ^ (64 - shift) := by
          rw [show (2 : Nat) ^ 7 = 128 from rfl]
          exact h128
        have := (Nat.pow_lt_pow_iff_right (by omega : 1 < 2)).mp h7
        omega
      have hvd : v / 128 < 2 ^ (64 - (shift + 7)) := by
        have he : (2 : Nat) ^ (64 - shift) = 2 ^ (64 - (shift + 7)) * 128 := by
          rw [show (128 : Nat) = 2 ^ 7 from rfl, ← pow_add]
          congr 1
          omega
        rw [Nat.div_lt_iff_lt_mul (by omega : 0 < 128)]
        calc v < 2 ^ (64 - shift) := hv
          _ = 2 ^ (64 - (shift + 7)) * 128 := he
      rw [ih (v / 128) (Nat.div_lt_self (by omega) (by omega)) (shift + 7) hshift hvd]
      have hsub : v % 128 + 128 - 128 = v % 128 := by omega
      rw [hsub]
      conv_rhs => rw [← Nat.div_add_mod v 128]
      ring

/-- Round trip at shift 0: every uint64 value survives encode-then-decode. -/
theorem getVarint64_roundtrip (v : Nat) (hv : v < 2 ^ 64) :
    getVarint64Core (putVarint64 v) 0 = some v := by
  have h := getVarint64_putVarint64 v 0 (by omega) (by simpa using hv)
  simpa using h

/-- C8: writing the two time-point properties at finish and reading them back
through `GetCompactionTimePoint` recovers both values exactly (for any uint64
values, into a map not already holding the two names); an absent property
reads back as the `kMaxUint64` sentinel through `GetCompactionTimePoint`
while the generic accessor reports presence `false`. -/
theorem c8_roundtrip_and_absent :
    (∀ (props : PropMap) (e l : Nat), e < 2 ^ 64 → l < 2 ^ 64 →
      props kEarliestTimeBeginCompact = none → props kLatestTimeEndCompact = none →
      GetCompactionTimePoint (finishProperties props e l) = (e, l)) ∧
    (∀ props : PropMap, props kEarliestTimeBeginCompact = none →
      (GetCompactionTimePoint props).1 = kMaxUint64 ∧
      (GetUint64Property props kEarliestTimeBeginCompact).2 = false) ∧
    (∀ props : PropMap, props kLatestTimeEndCompact = none →
      (GetCompactionTimePoint props).2 = kMaxUint64 ∧
      (GetUint64Property props kLatestTimeEndCompact).2 = false) := by
  have hnames : ¬kEarliestTimeBeginCompact = kLatestTimeEndCompact := by decide
  have hnames' : ¬kLatestTimeEndCompact = kEarliestTimeBeginCompact := by decide
  refine ⟨?_, ?_, ?_⟩
  · intro props e l he hl hpe hpl
    have h1 : finishProperties props e l kEarliestTimeBeginCompact =
        some (putVarint64 e) := by
      simp [finishProperties, mapInsert, hnames, hpe]
    have h2 : finishProperties props e l kLatestTimeEndCompact =
        some (putVarint64 l) := by
      simp [finishProperties, mapInsert, hnames', hpl]
    simp [GetCompactionTimePoint, GetUint64Property, h1, h2,
      getVarint64_roundtrip e he, getVarint64_roundtrip l hl]
  · intro props hp
    constructor
    · simp [GetCompactionTimePoint, GetUint64Property, hp]
    · simp [GetUint64Property, hp]
  · intro props hp
    constructor
    · simp [GetCompactionTimePoint, GetUint64Property, hp]
    · simp [GetUint64Property, hp]

/-- Witness: `c8_roundtrip_and_absent` on a fresh (empty) property map. -/
theorem c8_witness :
    GetCompactionTimePoint (finishProperties (fun _ => none) 5 7) = (5, 7) ∧
    (GetCompactionTimePoint (fun _ => none)).1 = kMaxUint64 ∧
    (GetUint64Property (fun _ => none) kEarliestTimeBeginCompact).2 = false :=
  ⟨c8_roundtrip_and_absent.1 (fun _ => none) 5 7 (by norm_num) (by norm_num) rfl rfl,
   c8_roundtrip_and_absent.2.1 (fun _ => none) rfl⟩

/-- C10: a present property whose bytes fail the varint decode behaves
exactly like an absent one — value 0 with presence flag false — both through
the generic accessor and through `GetMergeOperands`; the accessor is a total
function and cannot fail. -/
theorem c10_malformed_is_absent :
    (∀ (props : PropMap) (name : String) (raw : List Nat),
      props name = some raw → getVarint64Core raw 0 = none →
      GetUint64Property props name = (0, false)) ∧
    (∀ (props : PropMap) (raw : List Nat),
      props kMergeOperands = some raw → getVarint64Core raw 0 = none →
      GetMergeOperands props = (0, false)) := by
  have h : ∀ (props : PropMap) (name : String) (raw : List Nat),
      props name = some raw → getVarint64Core raw 0 = none →
      GetUint64Property props name = (0, false) := by
    intro props name raw hp hdec
    unfold GetUint64Property
    rw [hp]
    simp only [hdec]
  exact ⟨h, fun props raw hp hdec => h props kMergeOperands raw hp hdec⟩

/-- Witness: `c10_malformed_is_absent` on a lone continuation byte. -/
theorem c10_witness :
    GetUint64Property (fun _ => some [200]) kEarliestTimeBeginCompact = (0, false) ∧
    GetMergeOperands (fun _ => some [200]) = (0, false) :=
  ⟨c10_malformed_is_absent.1 (fun _ => some [200]) kEarliestTimeBeginCompact
      [200] rfl rfl,
   c10_malformed_is_absent.2 (fun _ => some [200]) [200] rfl rfl⟩

/-! ## C9: the user-key adapter -/

/-- Parsed internal key (external, `db/dbformat.h`): user key, sequence
number and raw value-type tag. -/
structure ParsedInternalKey where
  userKey : List Nat
  sequence : Nat
  vtype : Nat
deriving DecidableEq, Repr

/-- Translation of `UserKeyTablePropertiesCollector::InternalAdd` (lines 41-51).
`ParseInternalKey` and `GetEntryType` live in `db/dbformat.h` (not among the
sources) and are taken as function parameters; the wrapped collector's
`AddUserKey` is likewise a parameter, and the second component records the
exact invocation made of it (`none` when it was never invoked). -/
def userKeyInternalAdd
    (parseInternalKey : List Nat → Option ParsedInternalKey)
    (getEntryType : Nat → EntryType)
    (addUserKey : List Nat → List Nat → EntryType → Nat → Nat → Status)
    (key value : List Nat) (fileSize : Nat) :
    Status × Option (List Nat × List Nat × EntryType × Nat × Nat) :=
  match parseInternalKey key with
  | none => (Status.invalidArgument "Invalid internal key", none)
  | some ikey =>
    (addUserKey ikey.userKey value (getEntryType ikey.vtype) ikey.sequence fileSize,
     some (ikey.userKey, value, getEntryType ikey.vtype, ikey.sequence, fileSize))

/-- C9: when the internal key fails to parse, the adapter returns the
invalid-argument status and never invokes the wrapped collector; otherwise it
invokes it exactly once with the parsed user key, the entry kind derived from
the parsed type tag, and the parsed sequence number, returning its status. -/
theorem c9_keyAdapter
    (parseInternalKey : List Nat → Option ParsedInternalKey)
    (getEntryType : Nat → EntryType)
    (addUserKey : List Nat → List Nat → EntryType → Nat → Nat → Status)
    (key value : List Nat) (fileSize : Nat) :
    (parseInternalKey key = none →
      userKeyInternalAdd parseInternalKey getEntryType addUserKey key value fileSize =
        (Status.invalidArgument "Invalid internal key", none)) ∧
    (∀ ikey, parseInternalKey key = some ikey →
      userKeyInternalAdd parseInternalKey getEntryType addUserKey key value fileSize =
        (addUserKey ikey.userKey value (getEntryType ikey.vtype) ikey.sequence fileSize,
         some (ikey.userKey, value, getEntryType ikey.vtype, ikey.sequence,
           fileSize))) := by
  constructor
  · intro h
    unfold userKeyInternalAdd
    rw [h]
  · intro ikey h
    unfold userKeyInternalAdd
    rw [h]

/-- Witness: `c9_keyAdapter` on a failing and on a succeeding parse. -/
theorem c9_witness :
    userKeyInternalAdd (fun _ => none) (fun _ => EntryType.kEntryOther)
        (fun _ _ _ _ _ => Status.ok) [1] [2] 3 =
      (Status.invalidArgument "Invalid internal key", none) ∧
    userKeyInternalAdd (fun _ => some ⟨[9], 7, 0⟩) (fun _ => EntryType.kEntryPut)
        (fun _ _ _ _ _ => Status.otherError 1) [1] [2] 3 =
      (Status.otherError 1, some ([9], [2], EntryType.kEntryPut, 7, 3)) :=
  ⟨(c9_keyAdapter (fun _ => none) (fun _ => EntryType.kEntryOther)
      (fun _ _ _ _ _ => Status.ok) [1] [2] 3).1 rfl,
   (c9_keyAdapter (fun _ => some ⟨[9], 7, 0⟩) (fun _ => EntryType.kEntryPut)
      (fun _ _ _ _ _ => Status.otherError 1) [1] [2] 3).2 ⟨[9], 7, 0⟩ rfl⟩

end TerarkTTL
